import Mathlib

/-!
Verification of the segmentation-to-annotation export pipeline
(`predict_with_jsons_cityscapes.py`).

Modelling conventions:
* Python lists are Lean `List`s; 2-D arrays (label maps, masks) are `List (List Nat)`.
* Machine integers are `Nat`/`Int`; Python floating values are carried opaquely by
  their bit representation (a `Nat`), since no claim computes with them.
* Paths / file names are `List Char` (Python `str` viewed as a character sequence).
* Fallible code returns `Option`/`Except`: `none`/`.error` models a raised exception.
* The opaque external collaborators (the segmentation model and the contour tracer
  `get_polygon`) are function parameters.
* `int(math.ceil(len(arr) / float(m)))` is modelled as exact ceiling division on `Nat`;
  the float detour is exact for all realistic list lengths (below 2^52).
-/

/-! ## Definitions -/

/-! ### Workload partitioner (`partition_list`, source lines 127-130)

```python
def partition_list(arr, m):
    n = int(math.ceil(len(arr) / float(m)))
    return [arr[i:i + n] for i in range(0, len(arr), n)]
```

`range(0, L, n)` raises `ValueError` when the step `n` is `0` (which happens exactly
when `arr` is empty, for `m >= 1`); otherwise it enumerates `0, n, 2n, ...`, i.e.
`⌈L/n⌉` indices, and `arr[i:i+n]` is `(arr.drop i).take n`.  `m = 0` raises
`ZeroDivisionError`.  Both exceptions are modelled by `none`. -/
def partition_list {α : Type} (arr : List α) (m : Nat) : Option (List (List α)) :=
  if m = 0 then
    none
  else
    let n := (arr.length + m - 1) / m
    if n = 0 then
      none
    else
      some ((List.range ((arr.length + n - 1) / n)).map
        (fun i => (arr.drop (i * n)).take n))

/-! ### Mask decomposition and polygon extraction
(`get_polygons_for_all_classes`, source lines 157-169)

```python
def get_polygons_for_all_classes(pred, img_size):
    all_polygons = {}
    for class_id in range(19):
        class_mask = np.where(pred == class_id, 255, 0).astype(np.uint8)
        class_polygons = get_polygon(class_mask, img_size=img_size, building=False)
        if class_polygons is not None:
            if class_id not in all_polygons:
                all_polygons[class_id] = []
            all_polygons[class_id].extend(class_polygons)
    return all_polygons
```

The external tracer `get_polygon` is a parameter `tracer`.  Each `class_id` occurs
once in the loop, and Python dicts preserve insertion order, so `all_polygons` is a
list of `(class_id, polygons)` pairs in ascending `class_id` order. -/

/-- A 2-D per-pixel array (label map or binary mask). -/
abbrev LabelMap := List (List Nat)

/-- A polygon: a list of points, each point a list of coordinates. -/
abbrev Polygon := List (List Int)

/-- `np.where(pred == class_id, 255, 0)`: 255 exactly at the pixels labelled
`class_id`, 0 everywhere else. -/
def classMask (pred : LabelMap) (class_id : Nat) : LabelMap :=
  pred.map (fun row => row.map (fun p => if p = class_id then 255 else 0))

/-- One iteration of the `for class_id in range(19)` loop body. -/
def gpfacStep (tracer : LabelMap → Nat × Nat → Option (List Polygon)) (pred : LabelMap)
    (img_size : Nat × Nat) (all_polygons : List (Nat × List Polygon)) (class_id : Nat) :
    List (Nat × List Polygon) :=
  match tracer (classMask pred class_id) img_size with
  | none => all_polygons
  | some class_polygons => all_polygons ++ [(class_id, class_polygons)]

def get_polygons_for_all_classes (tracer : LabelMap → Nat × Nat → Option (List Polygon))
    (pred : LabelMap) (img_size : Nat × Nat) : List (Nat × List Polygon) :=
  (List.range 19).foldl (gpfacStep tracer pred img_size) []

/-- The same loop body, additionally recording (in order) every mask argument the
tracer is invoked on.  The first component computes exactly what
`get_polygons_for_all_classes` computes. -/
def gpfacTracedStep (tracer : LabelMap → Nat × Nat → Option (List Polygon))
    (pred : LabelMap) (img_size : Nat × Nat)
    (st : List (Nat × List Polygon) × List LabelMap) (class_id : Nat) :
    List (Nat × List Polygon) × List LabelMap :=
  (gpfacStep tracer pred img_size st.1 class_id, st.2 ++ [classMask pred class_id])

def get_polygons_for_all_classes_traced
    (tracer : LabelMap → Nat × Nat → Option (List Polygon)) (pred : LabelMap)
    (img_size : Nat × Nat) : List (Nat × List Polygon) × List LabelMap :=
  (List.range 19).foldl (gpfacTracedStep tracer pred img_size) ([], [])

/-! ### Annotation assembly (`predict` loop, source lines 393-478)

The per-image work that is opaque here (inference, visualization, file writes) is
summarized by an `ImageResult`: the extracted class-to-polygons mapping, the label
map's dimensions, and the normalized file name. -/

structure ImageRecord where
  id : Nat
  width : Nat
  height : Nat
  file_name : List Char
  license : List Char
  flickr_url : List Char
  coco_url : List Char
  date_captured : List Char
deriving DecidableEq

structure AnnotationRecord where
  id : Nat
  iscrowd : Nat
  image_id : Nat
  category_id : Nat
  segmentation : List (List Int)
  area : Nat
  bbox : List Nat
deriving DecidableEq

/-- Inner loop (`for polygon in class_polygons`, source lines 464-478): each polygon
is flattened (`[point for sublist in polygon for point in sublist]`) and appended as
an annotation with `id = len(annotations) + 1`. -/
def addPolyAnns (image_id class_id : Nat) (anns : List AnnotationRecord)
    (class_polygons : List Polygon) : List AnnotationRecord :=
  class_polygons.foldl
    (fun a polygon =>
      a ++ [{ id := a.length + 1, iscrowd := 0, image_id := image_id,
              category_id := class_id, segmentation := [polygon.flatten],
              area := 0, bbox := [] }]) anns

/-- Outer loop (`for class_id, class_polygons in all_class_polygons.items()`,
source line 462). -/
def addImageAnns (image_id : Nat) (all_class_polygons : List (Nat × List Polygon))
    (anns : List AnnotationRecord) : List AnnotationRecord :=
  all_class_polygons.foldl (fun a kv => addPolyAnns image_id kv.1 a kv.2) anns

/-- Per-image outcome of the opaque collaborators, feeding the record assembly. -/
structure ImageResult where
  all_class_polygons : List (Nat × List Polygon)
  width : Nat
  height : Nat
  im_file : List Char

/-- The shard loop `for i, im_path in enumerate(img_lists[local_rank])`
(source line 393): the image record gets `id = i + 1` (source line 451), then the
image's annotations are appended. -/
def predictLoop :
    Nat → List ImageResult → List ImageRecord × List AnnotationRecord →
      List ImageRecord × List AnnotationRecord
  | _, [], st => st
  | i, img :: rest, (images, anns) =>
      predictLoop (i + 1) rest
        (images ++ [{ id := i + 1, width := img.width, height := img.height,
                      file_name := img.im_file, license := [], flickr_url := [],
                      coco_url := [], date_captured := [] }],
         addImageAnns (i + 1) img.all_class_polygons anns)

/-- One invocation of `predict` over one shard: `images = []`, `annotations = []`,
enumeration starts at `i = 0`. -/
def predictShard (shard : List ImageResult) :
    List ImageRecord × List AnnotationRecord :=
  predictLoop 0 shard ([], [])

/-- Polygons contributed by one image across its categories. -/
def polyCount (all_class_polygons : List (Nat × List Polygon)) : Nat :=
  (all_class_polygons.map (fun kv => kv.2.length)).sum

/-- Polygons contributed by a whole shard. -/
def totalPolyCount (shard : List ImageResult) : Nat :=
  (shard.map (fun img => polyCount img.all_class_polygons)).sum

/-! ### File-name normalization (source lines 426-431)

```python
if image_dir is not None:
    im_file = im_path.replace(image_dir, '')
else:
    im_file = os.path.basename(im_path)
if im_file[0] == '/' or im_file[0] == '\\':
    im_file = im_file[1:]
```

`str.replace(old, '')` removes **every** non-overlapping occurrence of `old`,
scanning left to right, not only a leading prefix.  Indexing `im_file[0]` raises
`IndexError` if the intermediate name is empty, modelled by `none`. -/

/-- Left-to-right removal of every occurrence of `pat` (nonempty), with fuel
`s.length`, which suffices since every step consumes at least one character. -/
def pyReplaceAllAux : Nat → List Char → List Char → List Char
  | 0, s, _ => s
  | _ + 1, [], _ => []
  | fuel + 1, c :: rest, pat =>
      if pat.isPrefixOf (c :: rest) then
        pyReplaceAllAux fuel ((c :: rest).drop pat.length) pat
      else
        c :: pyReplaceAllAux fuel rest pat

/-- Python `s.replace(pat, '')` (replacing an empty pattern by '' is the identity). -/
def pyReplaceAll (s pat : List Char) : List Char :=
  if pat = [] then s else pyReplaceAllAux s.length s pat

/-- `os.path.basename` (POSIX): everything after the last `/`. -/
def posixBasename (s : List Char) : List Char :=
  (s.reverse.takeWhile (fun c => c ≠ '/')).reverse

/-- The trailing separator strip; `im_file[0]` on an empty name raises `IndexError`. -/
def stripLeadingSep (im_file : List Char) : Option (List Char) :=
  match im_file with
  | [] => none
  | c :: rest => some (if c = '/' ∨ c = '\\' then rest else c :: rest)

/-- The saved-name computation exactly as the source performs it. -/
def im_file_of (image_dir : Option (List Char)) (im_path : List Char) :
    Option (List Char) :=
  match image_dir with
  | some d => stripLeadingSep (pyReplaceAll im_path d)
  | none => stripLeadingSep (posixBasename im_path)

/-- The normalization as the spec words it (for comparison with `im_file_of`):
strip the configured root directory **prefix** if present — rather than every
occurrence — then strip one leading separator. -/
def im_file_spec (image_dir : Option (List Char)) (im_path : List Char) :
    Option (List Char) :=
  match image_dir with
  | some d =>
      stripLeadingSep (if d.isPrefixOf im_path then im_path.drop d.length else im_path)
  | none => stripLeadingSep (posixBasename im_path)

/-! ### JSON serialization with `NpEncoder` (source lines 143-154, 481-495)

```python
class NpEncoder(json.JSONEncoder):
    def default(self, obj):
        if isinstance(obj, np.integer):
            return int(obj)
        elif isinstance(obj, np.floating):
            return float(obj)
        elif isinstance(obj, np.ndarray):
            return obj.tolist()
        elif isinstance(obj, datetime.datetime):
            return obj.strftime('%Y-%m-%dT%H:%M:%S')
        else:
            return super(NpEncoder, self).default(obj)
```

`json.dumps(json_data, cls=NpEncoder)` handles dict/list/str/int/float natively and
calls `default` on anything else; the value `default` returns is serialized in turn. -/

/-- A numpy ndarray, as the tree `tolist` exposes: integer or floating leaves
(floats carried by bit pattern) under nested axes. -/
inductive NpArr : Type where
  | elemI : Int → NpArr
  | elemF : Nat → NpArr
  | arr : List NpArr → NpArr

/-- A Python value as seen by the serializer: native JSON values, the numpy wrapper
types `NpEncoder` special-cases, and `pyOther` for any other (unsupported) object. -/
inductive PyVal : Type where
  | pyInt : Int → PyVal
  | pyFloat : Nat → PyVal
  | pyStr : String → PyVal
  | pyList : List PyVal → PyVal
  | pyDict : List (String × PyVal) → PyVal
  | npInt : Int → PyVal
  | npFloat : Nat → PyVal
  | npArray : NpArr → PyVal
  | pyOther : String → PyVal

mutual

/-- `ndarray.tolist()`: nested plain lists with plain scalars at the leaves. -/
def NpArr.tolist : NpArr → PyVal
  | .elemI n => .pyInt n
  | .elemF b => .pyFloat b
  | .arr xs => .pyList (NpArr.tolistList xs)

def NpArr.tolistList : List NpArr → List PyVal
  | [] => []
  | x :: xs => NpArr.tolist x :: NpArr.tolistList xs

end

inductive EncodeErr : Type where
  | nameError
  | typeError
deriving DecidableEq

/-- The names bound at module level by the `import`/`from ... import ...` statements
of `predict_with_jsons_cityscapes.py` (source lines 15-30).  `datetime` is absent. -/
def importedNames : List String :=
  ["os", "math", "json", "argparse", "cv2", "np", "paddle", "utils", "infer",
   "get_polygon", "logger", "progbar", "visualize", "manager", "Config",
   "SegBuilder", "get_sys_env", "get_image_list", "predict", "Compose"]

/-- Resolving a bare name against the module namespace; an unbound name raises
`NameError`. -/
def lookupName (env : List String) (n : String) : Except EncodeErr Unit :=
  if n ∈ env then .ok () else .error .nameError

/-- `NpEncoder.default`.  For any object that is not one of the three numpy wrapper
types, evaluating the `isinstance(obj, datetime.datetime)` guard first resolves the
name `datetime`, which was never imported, so `NameError` is raised before
`super().default(obj)` — the base encoder's `TypeError` — can be reached. -/
def NpEncoder.default (obj : PyVal) : Except EncodeErr PyVal :=
  match obj with
  | .npInt n => .ok (.pyInt n)
  | .npFloat b => .ok (.pyFloat b)
  | .npArray a => .ok a.tolist
  | _ =>
      match lookupName importedNames "datetime" with
      | .error e => .error e
      | .ok _ => .error .typeError

/-- The three numpy wrapper types that `NpEncoder.default` special-cases. -/
def isNpWrapper : PyVal → Bool
  | .npInt _ => true
  | .npFloat _ => true
  | .npArray _ => true
  | _ => false

mutual

/-- `json.dumps(·, cls=NpEncoder)` as a value-normalization pass: native values are
walked structurally; everything else goes through `NpEncoder.default`.  The values
`default` returns here are already fully plain (`int(obj)`, `float(obj)`, and
`tolist()` yield native scalars / nested native lists), so the re-serialization
`json.dumps` performs on them is the identity walk and is elided. -/
def dumpsNp : PyVal → Except EncodeErr PyVal
  | .pyInt n => .ok (.pyInt n)
  | .pyFloat b => .ok (.pyFloat b)
  | .pyStr s => .ok (.pyStr s)
  | .pyList xs =>
      match dumpsNpList xs with
      | .ok ys => .ok (.pyList ys)
      | .error e => .error e
  | .pyDict kvs =>
      match dumpsNpKVs kvs with
      | .ok ws => .ok (.pyDict ws)
      | .error e => .error e
  | .npInt n => NpEncoder.default (.npInt n)
  | .npFloat b => NpEncoder.default (.npFloat b)
  | .npArray a => NpEncoder.default (.npArray a)
  | .pyOther t => NpEncoder.default (.pyOther t)

def dumpsNpList : List PyVal → Except EncodeErr (List PyVal)
  | [] => .ok []
  | x :: xs =>
      match dumpsNp x with
      | .error e => .error e
      | .ok y =>
          match dumpsNpList xs with
          | .error e => .error e
          | .ok ys => .ok (y :: ys)

def dumpsNpKVs : List (String × PyVal) → Except EncodeErr (List (String × PyVal))
  | [] => .ok []
  | (k, v) :: kvs =>
      match dumpsNp v with
      | .error e => .error e
      | .ok w =>
          match dumpsNpKVs kvs with
          | .error e => .error e
          | .ok ws => .ok ((k, w) :: ws)

end

mutual

/-- No numpy wrapper (and no unsupported object) anywhere in the value. -/
def isPlain : PyVal → Bool
  | .pyInt _ => true
  | .pyFloat _ => true
  | .pyStr _ => true
  | .pyList xs => isPlainList xs
  | .pyDict kvs => isPlainKVs kvs
  | .npInt _ => false
  | .npFloat _ => false
  | .npArray _ => false
  | .pyOther _ => false

def isPlainList : List PyVal → Bool
  | [] => true
  | x :: xs => isPlain x && isPlainList xs

def isPlainKVs : List (String × PyVal) → Bool
  | [] => true
  | (_, v) :: kvs => isPlain v && isPlainKVs kvs

end

mutual

/-- The value's non-native parts are only the three numpy wrapper types (no
`pyOther` anywhere): the premise of claim C7. -/
def noOther : PyVal → Bool
  | .pyList xs => noOtherList xs
  | .pyDict kvs => noOtherKVs kvs
  | .pyOther _ => false
  | _ => true

def noOtherList : List PyVal → Bool
  | [] => true
  | x :: xs => noOther x && noOtherList xs

def noOtherKVs : List (String × PyVal) → Bool
  | [] => true
  | (_, v) :: kvs => noOther v && noOtherKVs kvs

end

/-! ## Theorems -/

/-- Ceiling division bound: `L ≤ ⌈L/n⌉ * n` for positive `n`. -/
lemma ceil_div_mul_ge {L n : Nat} (hn : 0 < n) : L ≤ ((L + n - 1) / n) * n := by
  have hq := Nat.div_add_mod (L + n - 1) n
  have hr : (L + n - 1) % n < n := Nat.mod_lt _ hn
  have hc : n * ((L + n - 1) / n) = ((L + n - 1) / n) * n := Nat.mul_comm _ _
  rw [hc] at hq
  generalize ((L + n - 1) / n) * n = t at hq ⊢
  omega

/-- Ceiling division is monotone below a multiple: `L ≤ n * c → ⌈L/n⌉ ≤ c`. -/
lemma ceil_div_le {L n c : Nat} (hn : 0 < n) (h : L ≤ n * c) : (L + n - 1) / n ≤ c := by
  by_contra hlt
  push_neg at hlt
  have h1 : n * (c + 1) ≤ n * ((L + n - 1) / n) := Nat.mul_le_mul_left n hlt
  have hq := Nat.div_add_mod (L + n - 1) n
  have hr : (L + n - 1) % n < n := Nat.mod_lt _ hn
  rw [Nat.mul_add, Nat.mul_one] at h1
  generalize n * ((L + n - 1) / n) = t at hq h1
  generalize n * c = u at h h1
  omega

/-- Concatenating the first `k` chunks of stride `n` yields the first `k*n` elements. -/
lemma flatten_chunks {α : Type} (arr : List α) (n : Nat) :
    ∀ k, ((List.range k).map (fun i => (arr.drop (i * n)).take n)).flatten
      = arr.take (k * n) := by
  intro k
  induction k with
  | zero => simp
  | succ k ih =>
      rw [List.range_succ, List.map_append, List.flatten_append, ih]
      simp only [List.map_cons, List.map_nil, List.flatten_cons, List.flatten_nil,
        List.append_nil]
      rw [Nat.succ_mul, List.take_add]

/-- C3 helper: successful `partition_list` forces a nonempty input and exposes the
chunk shape. -/
lemma partition_list_eq_some {α : Type} {arr : List α} {m : Nat}
    {res : List (List α)} (hm : 1 ≤ m) (hres : partition_list arr m = some res) :
    0 < arr.length ∧ 0 < (arr.length + m - 1) / m ∧
      res = (List.range
          ((arr.length + (arr.length + m - 1) / m - 1) / ((arr.length + m - 1) / m))).map
        (fun i => (arr.drop (i * ((arr.length + m - 1) / m))).take
          ((arr.length + m - 1) / m)) := by
  have hm0 : m ≠ 0 := by omega
  unfold partition_list at hres
  rw [if_neg hm0] at hres
  simp only [] at hres
  by_cases hn : (arr.length + m - 1) / m = 0
  · rw [if_pos hn] at hres
    exact absurd hres (by simp)
  · rw [if_neg hn] at hres
    have hL : 0 < arr.length := by
      by_contra hL0
      push_neg at hL0
      have : arr.length = 0 := by omega
      apply hn
      rw [this]
      have h5 : m - 1 < m := by omega
      simp only [Nat.zero_add]
      exact Nat.div_eq_of_lt h5
    exact ⟨hL, Nat.pos_of_ne_zero hn, (Option.some_injective _ hres).symm⟩

/-- C3: every chunk produced on a successful call is a contiguous slice
`arr[i*n : i*n + n]`, the chunks concatenate to the whole input, and no chunk
exceeds `⌈N/M⌉` elements. -/
theorem partition_list_flatten_and_bound {α : Type} (arr : List α) (m : Nat)
    (res : List (List α)) (hm : 1 ≤ m) (hres : partition_list arr m = some res) :
    res.flatten = arr ∧ ∀ c ∈ res, c.length ≤ (arr.length + m - 1) / m := by
  obtain ⟨hL, hn, hshape⟩ := partition_list_eq_some hm hres
  constructor
  · rw [hshape, flatten_chunks]
    exact List.take_of_length_le (Nat.le_trans (ceil_div_mul_ge hn) (Nat.le_refl _))
  · intro c hc
    rw [hshape] at hc
    obtain ⟨i, _, hci⟩ := List.mem_map.mp hc
    rw [← hci, List.length_take]
    exact Nat.le_trans (Nat.min_le_left _ _) (Nat.le_refl _)

theorem partition_list_flatten_and_bound_witness :
    1 ≤ 2 ∧ partition_list [1, 2, 3] 2 = some [[1, 2], [3]] ∧
      ([[1, 2], [3]] : List (List Nat)).flatten = [1, 2, 3] ∧
      ∀ c ∈ ([[1, 2], [3]] : List (List Nat)), c.length ≤ ([1, 2, 3].length + 2 - 1) / 2 :=
  ⟨by decide, by decide,
    partition_list_flatten_and_bound [1, 2, 3] 2 [[1, 2], [3]] (by decide) (by decide)⟩

/-- C4 counterexample: splitting a 5-element list "into 4 pieces" yields only 3
chunks (`n = ⌈5/4⌉ = 2`, and only 3 slices of stride 2 fit), so the returned number
of sublists is not the worker count `M`. -/
theorem partition_list_count_counterexample :
    partition_list [1, 2, 3, 4, 5] 4 = some [[1, 2], [3, 4], [5]] ∧
      ([[1, 2], [3, 4], [5]] : List (List Nat)).length = 3 ∧ (3 : Nat) ≠ 4 := by
  refine ⟨by decide, by decide, by decide⟩

/-- C4 (amended): a successful `partition_list arr m` returns `⌈N/⌈N/M⌉⌉` sublists —
at most `M`, possibly fewer — and every returned sublist is nonempty (the trailing
chunk is never empty, and no empty padding chunks are produced when `N < M`). -/
theorem partition_list_count (arr : List Nat) (m : Nat) (res : List (List Nat))
    (hm : 1 ≤ m) (hres : partition_list arr m = some res) :
    res.length
        = (arr.length + (arr.length + m - 1) / m - 1) / ((arr.length + m - 1) / m) ∧
      res.length ≤ m ∧ ∀ c ∈ res, c ≠ [] := by
  obtain ⟨hL, hn, hshape⟩ := partition_list_eq_some hm hres
  have hmpos : 0 < m := hm
  have hlen : res.length
      = (arr.length + (arr.length + m - 1) / m - 1) / ((arr.length + m - 1) / m) := by
    rw [hshape, List.length_map, List.length_range]
  refine ⟨hlen, ?_, ?_⟩
  · rw [hlen]
    apply ceil_div_le hn
    exact ceil_div_mul_ge hmpos
  · intro c hc
    rw [hshape] at hc
    obtain ⟨i, hi, hci⟩ := List.mem_map.mp hc
    rw [List.mem_range] at hi
    set n := (arr.length + m - 1) / m with hndef
    have hmul : i * n < arr.length := by
      have hi1 : i + 1 ≤ (arr.length + n - 1) / n := hi
      have h2 : (i + 1) * n ≤ ((arr.length + n - 1) / n) * n :=
        Nat.mul_le_mul_right n hi1
      have h3 : ((arr.length + n - 1) / n) * n ≤ arr.length + n - 1 :=
        Nat.div_mul_le_self _ _
      have h4 : (i + 1) * n = i * n + n := by rw [Nat.add_mul, Nat.one_mul]
      rw [h4] at h2
      generalize i * n = t at h2 ⊢
      generalize ((arr.length + n - 1) / n) * n = u at h2 h3
      omega
    rw [← hci]
    intro hnil
    have hlt : ((arr.drop (i * n)).take n).length = 0 := by rw [hnil]; rfl
    rw [List.length_take, List.length_drop] at hlt
    have : n = 0 ∨ arr.length - i * n = 0 := by
      rcases Nat.min_eq_zero_iff.mp hlt with h | h
      · exact Or.inl h
      · exact Or.inr h
    omega

theorem partition_list_count_witness :
    1 ≤ 4 ∧ partition_list [1, 2, 3, 4, 5] 4 = some [[1, 2], [3, 4], [5]] ∧
      (([[1, 2], [3, 4], [5]] : List (List Nat)).length
          = (5 + (5 + 4 - 1) / 4 - 1) / ((5 + 4 - 1) / 4) ∧
        ([[1, 2], [3, 4], [5]] : List (List Nat)).length ≤ 4 ∧
        ∀ c ∈ ([[1, 2], [3, 4], [5]] : List (List Nat)), c ≠ []) :=
  ⟨by decide, by decide,
    partition_list_count [1, 2, 3, 4, 5] 4 [[1, 2], [3, 4], [5]] (by decide) (by decide)⟩

/-- C5 counterexample: on the empty list the computed chunk size is `0`, and
`range(0, 0, 0)` raises `ValueError: range() arg 3 must not be zero`, so
`partition_list([], 1)` does **not** return normally. -/
theorem partition_list_empty_counterexample :
    partition_list ([] : List Nat) 1 = none := by decide

/-- C5 (amended): `partition_list` returns normally for every *nonempty* input list
and every `M ≥ 1`; on the empty list the chunk size degenerates to `0` and the
zero-step `range` raises `ValueError`. -/
theorem partition_list_total_on_nonempty (arr : List Nat) (m : Nat)
    (hm : 1 ≤ m) (harr : arr ≠ []) : (partition_list arr m).isSome := by
  have hm0 : m ≠ 0 := by omega
  have hL : 0 < arr.length := List.length_pos.mpr harr
  have hn : (arr.length + m - 1) / m ≠ 0 := by
    intro h0
    have h1 : arr.length ≤ ((arr.length + m - 1) / m) * m := ceil_div_mul_ge hm
    rw [h0, Nat.zero_mul] at h1
    omega
  unfold partition_list
  rw [if_neg hm0]
  simp only []
  rw [if_neg hn]
  rfl

theorem partition_list_total_on_nonempty_witness :
    1 ≤ 3 ∧ ([7] : List Nat) ≠ [] ∧ (partition_list [7] 3).isSome :=
  ⟨by decide, by decide, partition_list_total_on_nonempty [7] 3 (by decide) (by decide)⟩

/-! ### Annotation and image identifier sequences (C1, C2) -/

/-- Unfolding one step of the polygon loop. -/
lemma addPolyAnns_cons (image_id class_id : Nat) (anns : List AnnotationRecord)
    (p : Polygon) (ps : List Polygon) :
    addPolyAnns image_id class_id anns (p :: ps)
      = addPolyAnns image_id class_id
          (anns ++ [{ id := anns.length + 1, iscrowd := 0, image_id := image_id,
                      category_id := class_id, segmentation := [p.flatten],
                      area := 0, bbox := [] }]) ps := rfl

lemma addPolyAnns_length (image_id class_id : Nat) (class_polygons : List Polygon) :
    ∀ anns : List AnnotationRecord,
      (addPolyAnns image_id class_id anns class_polygons).length
        = anns.length + class_polygons.length := by
  induction class_polygons with
  | nil => intro anns; rfl
  | cons p ps ih =>
      intro anns
      rw [addPolyAnns_cons, ih, List.length_append]
      simp only [List.length_cons, List.length_nil]
      omega

/-- Appending one annotation with `id = len + 1` preserves the `1..K` id sequence. -/
lemma addPolyAnns_ids (image_id class_id : Nat) (class_polygons : List Polygon) :
    ∀ anns : List AnnotationRecord,
      anns.map (fun r => r.id) = List.range' 1 anns.length →
      (addPolyAnns image_id class_id anns class_polygons).map (fun r => r.id)
        = List.range' 1 (addPolyAnns image_id class_id anns class_polygons).length := by
  induction class_polygons with
  | nil => intro anns h; exact h
  | cons p ps ih =>
      intro anns h
      rw [addPolyAnns_cons]
      apply ih
      rw [List.map_append, h, List.length_append]
      simp only [List.map_cons, List.map_nil, List.length_cons, List.length_nil]
      rw [List.range'_concat]
      simp [Nat.add_comm]

lemma addImageAnns_cons (image_id : Nat) (kv : Nat × List Polygon)
    (rest : List (Nat × List Polygon)) (anns : List AnnotationRecord) :
    addImageAnns image_id (kv :: rest) anns
      = addImageAnns image_id rest (addPolyAnns image_id kv.1 anns kv.2) := rfl

lemma polyCount_cons (kv : Nat × List Polygon) (rest : List (Nat × List Polygon)) :
    polyCount (kv :: rest) = kv.2.length + polyCount rest := by
  simp [polyCount]

lemma addImageAnns_length (image_id : Nat) (cps : List (Nat × List Polygon)) :
    ∀ anns : List AnnotationRecord,
      (addImageAnns image_id cps anns).length = anns.length + polyCount cps := by
  induction cps with
  | nil => intro anns; simp [addImageAnns, polyCount]
  | cons kv rest ih =>
      intro anns
      rw [addImageAnns_cons, ih, addPolyAnns_length, polyCount_cons]
      omega

lemma addImageAnns_ids (image_id : Nat) (cps : List (Nat × List Polygon)) :
    ∀ anns : List AnnotationRecord,
      anns.map (fun r => r.id) = List.range' 1 anns.length →
      (addImageAnns image_id cps anns).map (fun r => r.id)
        = List.range' 1 (addImageAnns image_id cps anns).length := by
  induction cps with
  | nil => intro anns h; exact h
  | cons kv rest ih =>
      intro anns h
      rw [addImageAnns_cons]
      exact ih _ (addPolyAnns_ids image_id kv.1 kv.2 anns h)

lemma predictLoop_fst (shard : List ImageResult) :
    ∀ (i : Nat) (images : List ImageRecord) (anns : List AnnotationRecord),
      (predictLoop i shard (images, anns)).1.map (fun r => r.id)
        = images.map (fun r => r.id) ++ List.range' (i + 1) shard.length := by
  induction shard with
  | nil => intro i images anns; simp [predictLoop]
  | cons img rest ih =>
      intro i images anns
      rw [predictLoop, ih, List.map_append, List.length_cons, List.range'_succ]
      simp only [List.map_cons, List.map_nil]
      rw [List.append_assoc]
      rfl

lemma predictLoop_snd (shard : List ImageResult) :
    ∀ (i : Nat) (images : List ImageRecord) (anns : List AnnotationRecord),
      anns.map (fun r => r.id) = List.range' 1 anns.length →
      (predictLoop i shard (images, anns)).2.map (fun r => r.id)
          = List.range' 1 (predictLoop i shard (images, anns)).2.length ∧
        (predictLoop i shard (images, anns)).2.length
          = anns.length + totalPolyCount shard := by
  induction shard with
  | nil => intro i images anns h; exact ⟨h, by simp [predictLoop, totalPolyCount]⟩
  | cons img rest ih =>
      intro i images anns h
      rw [predictLoop]
      obtain ⟨ha, hb⟩ := ih (i + 1) _ _ (addImageAnns_ids (i + 1) img.all_class_polygons anns h)
      refine ⟨ha, ?_⟩
      rw [hb, addImageAnns_length]
      simp [totalPolyCount]
      omega

/-- C1: across one shard processed by one invocation of `predict`, the annotation
ids are exactly `1..K` in emission order, where `K` is the total number of polygons
over all images and categories of the shard — strictly increasing and continuing
across successive images without resetting. -/
theorem annotation_ids_are_one_to_K (shard : List ImageResult) :
    (predictShard shard).2.map (fun r => r.id)
      = List.range' 1 (totalPolyCount shard) := by
  obtain ⟨ha, hb⟩ := predictLoop_snd shard 0 [] [] rfl
  rw [predictShard, ha, hb]
  simp

/-- C2: across one shard of `N` images, the image record ids are exactly `1..N`
in input order: starting at 1, increasing by exactly 1 per processed image, with
no gaps or collisions. -/
theorem image_ids_are_one_to_N (shard : List ImageResult) :
    (predictShard shard).1.map (fun r => r.id) = List.range' 1 shard.length := by
  have h := predictLoop_fst shard 0 [] []
  rw [predictShard, h]
  simp

/-! ### Unconditional class iteration, mask binarization, and None handling (C6, C9) -/

lemma foldl_gpfacTracedStep_snd (tracer : LabelMap → Nat × Nat → Option (List Polygon))
    (pred : LabelMap) (img_size : Nat × Nat) :
    ∀ (l : List Nat) (st : List (Nat × List Polygon) × List LabelMap),
      (l.foldl (gpfacTracedStep tracer pred img_size) st).2
        = st.2 ++ l.map (fun class_id => classMask pred class_id) := by
  intro l
  induction l with
  | nil => intro st; simp
  | cons c cs ih =>
      intro st
      rw [List.foldl_cons, ih]
      simp [gpfacTracedStep]

lemma foldl_gpfacTracedStep_fst (tracer : LabelMap → Nat × Nat → Option (List Polygon))
    (pred : LabelMap) (img_size : Nat × Nat) :
    ∀ (l : List Nat) (st : List (Nat × List Polygon) × List LabelMap),
      (l.foldl (gpfacTracedStep tracer pred img_size) st).1
        = l.foldl (gpfacStep tracer pred img_size) st.1 := by
  intro l
  induction l with
  | nil => intro st; rfl
  | cons c cs ih =>
      intro st
      rw [List.foldl_cons, List.foldl_cons, ih]
      rfl

lemma mem_foldl_gpfacStep (tracer : LabelMap → Nat × Nat → Option (List Polygon))
    (pred : LabelMap) (img_size : Nat × Nat) :
    ∀ (l : List Nat) (acc : List (Nat × List Polygon)) (e : Nat × List Polygon),
      e ∈ l.foldl (gpfacStep tracer pred img_size) acc →
      e ∈ acc ∨ tracer (classMask pred e.1) img_size = some e.2 := by
  intro l
  induction l with
  | nil => intro acc e h; exact Or.inl h
  | cons c cs ih =>
      intro acc e h
      rw [List.foldl_cons] at h
      rcases ih _ e h with h1 | h1
      · unfold gpfacStep at h1
        cases htr : tracer (classMask pred c) img_size with
        | none => rw [htr] at h1; exact Or.inl h1
        | some ps =>
            rw [htr] at h1
            rcases List.mem_append.mp h1 with h2 | h2
            · exact Or.inl h2
            · have he : e = (c, ps) := by simpa using h2
              right
              rw [he]
              exact htr
      · exact Or.inr h1

/-- C6: `get_polygons_for_all_classes` iterates the fixed class-id range `[0, 19)`
unconditionally — the masks passed to the tracer are, in order, exactly one per
class id of `List.range 19`, whatever the tracer returns and whether or not the
class occurs in the label map — and each such mask holds 255 exactly at the pixels
whose label equals that class id, 0 everywhere else. -/
theorem get_polygons_for_all_classes_unconditional
    (tracer : LabelMap → Nat × Nat → Option (List Polygon)) (pred : LabelMap)
    (img_size : Nat × Nat) :
    (get_polygons_for_all_classes_traced tracer pred img_size).2
        = (List.range 19).map (fun class_id => classMask pred class_id) ∧
      (get_polygons_for_all_classes_traced tracer pred img_size).1
        = get_polygons_for_all_classes tracer pred img_size ∧
      ∀ (class_id i j : Nat),
        ((classMask pred class_id)[i]?.bind fun row => row[j]?)
          = (pred[i]?.bind fun row => row[j]?).map
              (fun p => if p = class_id then 255 else 0) := by
  refine ⟨?_, ?_, ?_⟩
  · have h := foldl_gpfacTracedStep_snd tracer pred img_size (List.range 19) ([], [])
    simpa [get_polygons_for_all_classes_traced] using h
  · have h := foldl_gpfacTracedStep_fst tracer pred img_size (List.range 19) ([], [])
    simpa [get_polygons_for_all_classes_traced, get_polygons_for_all_classes] using h
  · intro class_id i j
    cases h : pred[i]? with
    | none => simp [classMask, List.getElem?_map, h]
    | some row => simp [classMask, List.getElem?_map, h]

lemma mem_addPolyAnns (image_id class_id : Nat) (class_polygons : List Polygon) :
    ∀ (anns : List AnnotationRecord) (r : AnnotationRecord),
      r ∈ addPolyAnns image_id class_id anns class_polygons →
      r ∈ anns ∨ r.category_id = class_id := by
  induction class_polygons with
  | nil => intro anns r h; exact Or.inl h
  | cons p ps ih =>
      intro anns r h
      rw [addPolyAnns_cons] at h
      rcases ih _ r h with h1 | h1
      · rcases List.mem_append.mp h1 with h2 | h2
        · exact Or.inl h2
        · right
          rw [List.mem_singleton] at h2
          rw [h2]
      · exact Or.inr h1

lemma mem_addImageAnns (image_id : Nat) (cps : List (Nat × List Polygon)) :
    ∀ (anns : List AnnotationRecord) (r : AnnotationRecord),
      r ∈ addImageAnns image_id cps anns →
      r ∈ anns ∨ ∃ ps, (r.category_id, ps) ∈ cps := by
  induction cps with
  | nil => intro anns r h; exact Or.inl h
  | cons kv rest ih =>
      intro anns r h
      rw [addImageAnns_cons] at h
      rcases ih _ r h with h1 | h1
      · rcases mem_addPolyAnns image_id kv.1 kv.2 anns r h1 with h2 | h2
        · exact Or.inl h2
        · right
          refine ⟨kv.2, ?_⟩
          rw [h2]
          exact List.mem_cons_self _ _
      · obtain ⟨ps, hps⟩ := h1
        exact Or.inr ⟨ps, List.mem_cons_of_mem _ hps⟩

/-- C9: when the external tracer returns `None` for a category's mask, that
category contributes no entry to the result mapping, and therefore no
`AnnotationRecord` is appended for it — the `None` is treated as zero polygons,
not as an error. -/
theorem tracer_none_means_zero_polygons
    (tracer : LabelMap → Nat × Nat → Option (List Polygon)) (pred : LabelMap)
    (img_size : Nat × Nat) (class_id : Nat)
    (hnone : tracer (classMask pred class_id) img_size = none) :
    (∀ ps, (class_id, ps) ∉ get_polygons_for_all_classes tracer pred img_size) ∧
      ∀ (image_id : Nat) (anns : List AnnotationRecord) (r : AnnotationRecord),
        r ∈ addImageAnns image_id (get_polygons_for_all_classes tracer pred img_size)
          anns →
        r ∉ anns → r.category_id ≠ class_id := by
  have hkey : ∀ e ∈ get_polygons_for_all_classes tracer pred img_size,
      tracer (classMask pred e.1) img_size = some e.2 := by
    intro e he
    rcases mem_foldl_gpfacStep tracer pred img_size (List.range 19) [] e he with h | h
    · exact absurd h (List.not_mem_nil e)
    · exact h
  have hnotin : ∀ ps, (class_id, ps) ∉ get_polygons_for_all_classes tracer pred img_size := by
    intro ps hmem
    have h1 : tracer (classMask pred class_id) img_size = some ps := hkey (class_id, ps) hmem
    rw [hnone] at h1
    exact absurd h1 (by simp)
  refine ⟨hnotin, ?_⟩
  intro image_id anns r hr hra hcat
  rcases mem_addImageAnns image_id _ anns r hr with h | ⟨ps, hps⟩
  · exact hra h
  · rw [hcat] at hps
    exact hnotin ps hps

theorem tracer_none_means_zero_polygons_witness :
    (fun (_ : LabelMap) (_ : Nat × Nat) => (none : Option (List Polygon)))
        (classMask [[0]] 0) (1, 1) = none ∧
      ((∀ ps, ((0 : Nat), ps)
            ∉ get_polygons_for_all_classes (fun _ _ => none) [[0]] (1, 1)) ∧
        ∀ (image_id : Nat) (anns : List AnnotationRecord) (r : AnnotationRecord),
          r ∈ addImageAnns image_id
            (get_polygons_for_all_classes (fun _ _ => none) [[0]] (1, 1)) anns →
          r ∉ anns → r.category_id ≠ 0) :=
  ⟨rfl, tracer_none_means_zero_polygons (fun _ _ => none) [[0]] (1, 1) 0 rfl⟩

/-! ### File-name normalization (C8) -/

/-- If the (nonempty) pattern occurs nowhere in `s`, removal is the identity. -/
lemma pyReplaceAllAux_no_occurrence (pat : List Char) (_hpat : pat ≠ []) :
    ∀ (fuel : Nat) (s : List Char), s.length ≤ fuel → ¬ pat <:+: s →
      pyReplaceAllAux fuel s pat = s := by
  intro fuel
  induction fuel with
  | zero => intro s hs hocc; rfl
  | succ fuel ih =>
      intro s hs hocc
      match s with
      | [] => rfl
      | c :: rest =>
          rw [pyReplaceAllAux]
          have hnp : ¬ pat.isPrefixOf (c :: rest) = true := by
            intro hp
            exact hocc (List.infix_cons_iff.mpr
              (Or.inl (List.isPrefixOf_iff_prefix.mp hp)))
          rw [if_neg hnp]
          have hrest : ¬ pat <:+: rest := by
            intro h2
            exact hocc (List.infix_cons_iff.mpr (Or.inr h2))
          have hlen : rest.length ≤ fuel := by
            have := hs
            simp only [List.length_cons] at this
            omega
          rw [ih rest hlen hrest]

/-- If the (nonempty) pattern occurs exactly once, as the leading prefix, removal
strips that prefix. -/
lemma pyReplaceAllAux_strips_leading (pat : List Char) (hpat : pat ≠ []) :
    ∀ (fuel : Nat) (s : List Char), s.length ≤ fuel → pat <+: s →
      ¬ pat <:+: s.drop pat.length →
      pyReplaceAllAux fuel s pat = s.drop pat.length := by
  intro fuel
  induction fuel with
  | zero =>
      intro s hs hpre hocc
      have hs0 : s = [] := by
        cases s with
        | nil => rfl
        | cons c rest => simp at hs
      rw [hs0] at hpre
      have : pat = [] := List.prefix_nil.mp hpre
      exact absurd this hpat
  | succ fuel ih =>
      intro s hs hpre hocc
      match s with
      | [] =>
          have : pat = [] := List.prefix_nil.mp hpre
          exact absurd this hpat
      | c :: rest =>
          rw [pyReplaceAllAux]
          rw [if_pos (List.isPrefixOf_iff_prefix.mpr hpre)]
          have hplen : 1 ≤ pat.length := by
            cases pat with
            | nil => exact absurd rfl hpat
            | cons _ _ => simp
          have hlen : ((c :: rest).drop pat.length).length ≤ fuel := by
            rw [List.length_drop]
            simp only [List.length_cons] at hs ⊢
            omega
          exact pyReplaceAllAux_no_occurrence pat hpat fuel _ hlen hocc

/-- C8 counterexample: with configured root `"/a"` and path `"/a/a/f"`, the code's
`str.replace` removes **both** occurrences of `"/a"`, producing `"f"`, while
stripping only the leading prefix (as the claim states) would produce `"a/f"`. -/
theorem im_file_of_counterexample :
    im_file_of (some ['/', 'a']) ['/', 'a', '/', 'a', '/', 'f'] = some ['f'] ∧
      im_file_spec (some ['/', 'a']) ['/', 'a', '/', 'a', '/', 'f']
        = some ['a', '/', 'f'] ∧
      im_file_of (some ['/', 'a']) ['/', 'a', '/', 'a', '/', 'f']
        ≠ im_file_spec (some ['/', 'a']) ['/', 'a', '/', 'a', '/', 'f'] := by
  refine ⟨by decide, by decide, by decide⟩

/-- C8 (amended): the code removes **every** occurrence of the configured root
directory string from the path (`str.replace`), not only a leading prefix; when
the root occurs in the path at most once and only as its leading prefix, this
coincides with the prefix-stripping the claim describes (followed by stripping one
leading separator; the basename branch is unchanged). -/
theorem im_file_of_matches_prefix_strip (d p : List Char) (hd : d ≠ []) :
    (d <+: p → ¬ d <:+: p.drop d.length →
        im_file_of (some d) p = im_file_spec (some d) p) ∧
      (¬ d <:+: p → im_file_of (some d) p = im_file_spec (some d) p) := by
  constructor
  · intro hpre hocc
    show stripLeadingSep (pyReplaceAll p d)
      = stripLeadingSep (if d.isPrefixOf p then p.drop d.length else p)
    rw [if_pos (List.isPrefixOf_iff_prefix.mpr hpre)]
    unfold pyReplaceAll
    rw [if_neg hd]
    rw [pyReplaceAllAux_strips_leading d hd p.length p (Nat.le_refl _) hpre hocc]
  · intro hocc
    show stripLeadingSep (pyReplaceAll p d)
      = stripLeadingSep (if d.isPrefixOf p then p.drop d.length else p)
    have hnp : ¬ d.isPrefixOf p = true := by
      intro hp
      exact hocc (List.IsPrefix.isInfix (List.isPrefixOf_iff_prefix.mp hp))
    rw [if_neg hnp]
    unfold pyReplaceAll
    rw [if_neg hd]
    rw [pyReplaceAllAux_no_occurrence d hd p.length p (Nat.le_refl _) hocc]

theorem im_file_of_matches_prefix_strip_witness :
    (['/', 'b'] : List Char) ≠ [] ∧
      im_file_of (some ['/', 'b']) ['/', 'b', '/', 'f']
        = im_file_spec (some ['/', 'b']) ['/', 'b', '/', 'f'] :=
  ⟨by decide,
    (im_file_of_matches_prefix_strip ['/', 'b'] ['/', 'b', '/', 'f'] (by decide)).1
      (by decide) (by decide)⟩

/-! ### Numeric-wrapper normalization and the missing `datetime` import (C7, C10) -/

lemma isPlainList_tolistList (xs : List NpArr)
    (h : ∀ x ∈ xs, isPlain (NpArr.tolist x) = true) :
    isPlainList (NpArr.tolistList xs) = true := by
  induction xs with
  | nil => rfl
  | cons x xs ih =>
      simp only [NpArr.tolistList, isPlainList, Bool.and_eq_true]
      exact ⟨h x (List.mem_cons_self _ _),
        ih (fun y hy => h y (List.mem_cons_of_mem _ hy))⟩

lemma isPlain_tolist_aux : ∀ (n : Nat) (a : NpArr), sizeOf a ≤ n →
    isPlain (NpArr.tolist a) = true := by
  intro n
  induction n with
  | zero =>
      intro a h
      exfalso
      cases a <;> simp at h
  | succ n ih =>
      intro a hsz
      cases a with
      | elemI k => rfl
      | elemF b => rfl
      | arr xs =>
          have hsx : sizeOf xs ≤ n := by
            have h1 : 1 + sizeOf xs ≤ n + 1 := by simpa using hsz
            omega
          have hp : isPlainList (NpArr.tolistList xs) = true :=
            isPlainList_tolistList xs (fun x hx =>
              ih x (by
                have h2 : sizeOf x < sizeOf xs := List.sizeOf_lt_of_mem hx
                omega))
          simpa [NpArr.tolist, isPlain] using hp

lemma isPlain_tolist (a : NpArr) : isPlain (NpArr.tolist a) = true :=
  isPlain_tolist_aux (sizeOf a) a (Nat.le_refl _)

lemma dumpsNpList_cases (xs : List PyVal)
    (h : ∀ x ∈ xs,
      (noOther x = true → ∃ w, dumpsNp x = Except.ok w ∧ isPlain w = true) ∧
      (noOther x = false → dumpsNp x = Except.error EncodeErr.nameError)) :
    (noOtherList xs = true →
      ∃ ws, dumpsNpList xs = Except.ok ws ∧ isPlainList ws = true) ∧
    (noOtherList xs = false → dumpsNpList xs = Except.error EncodeErr.nameError) := by
  induction xs with
  | nil =>
      exact ⟨fun _ => ⟨[], rfl, rfl⟩, fun hf => by simp [noOtherList] at hf⟩
  | cons x xs ih =>
      have hx := h x (List.mem_cons_self _ _)
      have hxs := ih (fun y hy => h y (List.mem_cons_of_mem _ hy))
      constructor
      · intro ht
        rw [noOtherList, Bool.and_eq_true] at ht
        obtain ⟨w, hw, hpw⟩ := hx.1 ht.1
        obtain ⟨ws, hws, hpws⟩ := hxs.1 ht.2
        refine ⟨w :: ws, ?_, ?_⟩
        · simp [dumpsNpList, hw, hws]
        · simp [isPlainList, hpw, hpws]
      · intro hf
        cases hb : noOther x with
        | false =>
            have he := hx.2 hb
            simp [dumpsNpList, he]
        | true =>
            have hlf : noOtherList xs = false := by
              rw [noOtherList, hb, Bool.true_and] at hf
              exact hf
            obtain ⟨w, hw, _⟩ := hx.1 hb
            have he := hxs.2 hlf
            simp [dumpsNpList, hw, he]

lemma dumpsNpKVs_cases (kvs : List (String × PyVal))
    (h : ∀ p ∈ kvs,
      (noOther p.2 = true → ∃ w, dumpsNp p.2 = Except.ok w ∧ isPlain w = true) ∧
      (noOther p.2 = false → dumpsNp p.2 = Except.error EncodeErr.nameError)) :
    (noOtherKVs kvs = true →
      ∃ ws, dumpsNpKVs kvs = Except.ok ws ∧ isPlainKVs ws = true) ∧
    (noOtherKVs kvs = false → dumpsNpKVs kvs = Except.error EncodeErr.nameError) := by
  induction kvs with
  | nil =>
      exact ⟨fun _ => ⟨[], rfl, rfl⟩, fun hf => by simp [noOtherKVs] at hf⟩
  | cons p kvs ih =>
      obtain ⟨k, v⟩ := p
      have hx := h (k, v) (List.mem_cons_self _ _)
      have hxs := ih (fun q hq => h q (List.mem_cons_of_mem _ hq))
      constructor
      · intro ht
        rw [noOtherKVs, Bool.and_eq_true] at ht
        obtain ⟨w, hw, hpw⟩ := hx.1 ht.1
        obtain ⟨ws, hws, hpws⟩ := hxs.1 ht.2
        refine ⟨(k, w) :: ws, ?_, ?_⟩
        · simp [dumpsNpKVs, hw, hws]
        · simp [isPlainKVs, hpw, hpws]
      · intro hf
        cases hb : noOther v with
        | false =>
            have he := hx.2 hb
            simp [dumpsNpKVs, he]
        | true =>
            have hlf : noOtherKVs kvs = false := by
              rw [noOtherKVs, hb, Bool.true_and] at hf
              exact hf
            obtain ⟨w, hw, _⟩ := hx.1 hb
            have he := hxs.2 hlf
            simp [dumpsNpKVs, hw, he]

lemma dumpsNp_cases : ∀ (n : Nat) (v : PyVal), sizeOf v ≤ n →
    (noOther v = true → ∃ w, dumpsNp v = Except.ok w ∧ isPlain w = true) ∧
    (noOther v = false → dumpsNp v = Except.error EncodeErr.nameError) := by
  intro n
  induction n with
  | zero =>
      intro v h
      exfalso
      cases v <;> simp at h
  | succ n ih =>
      intro v hsz
      cases v with
      | pyInt k =>
          exact ⟨fun _ => ⟨.pyInt k, rfl, rfl⟩, fun hf => by simp [noOther] at hf⟩
      | pyFloat b =>
          exact ⟨fun _ => ⟨.pyFloat b, rfl, rfl⟩, fun hf => by simp [noOther] at hf⟩
      | pyStr s =>
          exact ⟨fun _ => ⟨.pyStr s, rfl, rfl⟩, fun hf => by simp [noOther] at hf⟩
      | pyList xs =>
          have hsx : sizeOf xs ≤ n := by
            have h1 : 1 + sizeOf xs ≤ n + 1 := by simpa using hsz
            omega
          have hmem := dumpsNpList_cases xs (fun x hx =>
            ih x (by
              have h2 : sizeOf x < sizeOf xs := List.sizeOf_lt_of_mem hx
              omega))
          constructor
          · intro ht
            have h3 : noOtherList xs = true := by simpa [noOther] using ht
            obtain ⟨ws, hws, hpws⟩ := hmem.1 h3
            refine ⟨.pyList ws, by simp [dumpsNp, hws], by simpa [isPlain] using hpws⟩
          · intro hf
            have h3 : noOtherList xs = false := by simpa [noOther] using hf
            have he := hmem.2 h3
            simp [dumpsNp, he]
      | pyDict kvs =>
          have hsx : sizeOf kvs ≤ n := by
            have h1 : 1 + sizeOf kvs ≤ n + 1 := by simpa using hsz
            omega
          have hmem := dumpsNpKVs_cases kvs (fun p hp =>
            ih p.2 (by
              have h2 : sizeOf p < sizeOf kvs := List.sizeOf_lt_of_mem hp
              obtain ⟨a, b⟩ := p
              have h3 : sizeOf (a, b) = 1 + sizeOf a + sizeOf b := by simp
              simp only []
              omega))
          constructor
          · intro ht
            have h3 : noOtherKVs kvs = true := by simpa [noOther] using ht
            obtain ⟨ws, hws, hpws⟩ := hmem.1 h3
            refine ⟨.pyDict ws, by simp [dumpsNp, hws], by simpa [isPlain] using hpws⟩
          · intro hf
            have h3 : noOtherKVs kvs = false := by simpa [noOther] using hf
            have he := hmem.2 h3
            simp [dumpsNp, he]
      | npInt k =>
          exact ⟨fun _ => ⟨.pyInt k, rfl, rfl⟩, fun hf => by simp [noOther] at hf⟩
      | npFloat b =>
          exact ⟨fun _ => ⟨.pyFloat b, rfl, rfl⟩, fun hf => by simp [noOther] at hf⟩
      | npArray a =>
          exact ⟨fun _ => ⟨a.tolist, rfl, isPlain_tolist a⟩,
            fun hf => by simp [noOther] at hf⟩
      | pyOther t =>
          exact ⟨fun ht => by simp [noOther] at ht, fun _ => rfl⟩

/-- C7: serializing with `NpEncoder` normalizes every numpy integer to a plain int,
every numpy floating value to a plain float, and every numpy ndarray to a nested
plain list: any value whose non-native parts are only these wrapper types
serializes successfully to a value with no wrapper-type artifacts. -/
theorem NpEncoder_serialization_normalizes (v : PyVal) (h : noOther v = true) :
    ∃ w, dumpsNp v = Except.ok w ∧ isPlain w = true :=
  (dumpsNp_cases (sizeOf v) v (Nat.le_refl _)).1 h

theorem NpEncoder_serialization_normalizes_witness :
    noOther (.pyDict [("images",
        .pyList [.npInt 3, .npArray (.arr [.elemI 1, .elemF 7]), .npFloat 2])]) = true ∧
      ∃ w, dumpsNp (.pyDict [("images",
            .pyList [.npInt 3, .npArray (.arr [.elemI 1, .elemF 7]), .npFloat 2])])
          = Except.ok w ∧ isPlain w = true :=
  ⟨rfl, NpEncoder_serialization_normalizes _ rfl⟩

/-- C10: for every object that is not a numpy integer, floating value, or ndarray,
`NpEncoder.default` raises `NameError` — the `isinstance(obj, datetime.datetime)`
guard references the name `datetime`, never imported in this module — instead of
falling through to the base `JSONEncoder`'s standard `TypeError`; in particular,
serializing any value containing such an unsupported object fails with `NameError`. -/
theorem NpEncoder_default_raises_nameError :
    (∀ v : PyVal, isNpWrapper v = false →
        NpEncoder.default v = Except.error EncodeErr.nameError) ∧
      ∀ v : PyVal, noOther v = false →
        dumpsNp v = Except.error EncodeErr.nameError := by
  constructor
  · intro v hv
    cases v <;> first | rfl | simp [isNpWrapper] at hv
  · intro v hf
    exact (dumpsNp_cases (sizeOf v) v (Nat.le_refl _)).2 hf

theorem NpEncoder_default_raises_nameError_witness :
    isNpWrapper (.pyStr "x") = false ∧
      NpEncoder.default (.pyStr "x") = Except.error EncodeErr.nameError ∧
      noOther (.pyList [.pyOther "obj"]) = false ∧
      dumpsNp (.pyList [.pyOther "obj"]) = Except.error EncodeErr.nameError :=
  ⟨rfl, NpEncoder_default_raises_nameError.1 _ rfl, rfl,
    NpEncoder_default_raises_nameError.2 _ rfl⟩
